import Mathlib

/-!
Shallow embedding of the retrieval-and-decision pipeline of the RAG chatbot
repository (src/src/...), together with proofs checking the natural-language
specification's claims against it.

Python strings are modelled as `List Char`; Python floats are modelled as exact
rationals (`ℚ`) where the code only does field arithmetic and comparisons, and
as real numbers (`ℝ`) where a square root is taken (`np.std`, `np.linalg.norm`).
External collaborators (the sentence-embedding encoder and the FAISS
nearest-neighbour structure, the Ollama generation backend) are parameters of
the embedded functions: a FAISS index handle is modelled as the function
`ℕ → List (ℤ × ℚ)` sending a requested neighbour count to the returned
(slot, score) pairs (FAISS returns int64 slot values, hence `ℤ`), and a
generation call is modelled by its outcome `Except (List Char) (List Char)`
(`error` = the call raised, carrying the exception text).
-/

set_option maxRecDepth 16384

/-! ## utils.py: clean_response -/

/-- The set of characters matched by the regex `\s` (and stripped by
`str.strip`) on the ASCII inputs relevant here. -/
def isPySpace (c : Char) : Bool :=
  c = ' ' || c = '\t' || c = '\n' || c = '\r' || c = '\x0b' || c = '\x0c'

/-- Python `str.lower()` (ASCII model). -/
def lower (l : List Char) : List Char :=
  l.map Char.toLower

/-- `pat` is an initial segment of `l` (helper for substring search). -/
def leadsWith : List Char → List Char → Bool
  | [], _ => true
  | _ :: _, [] => false
  | a :: as, b :: bs => a = b && leadsWith as bs

/-- Python `str.find`: index of the first occurrence of `pat` in `l`,
`none` when absent (Python returns -1; `in` tests the same condition). -/
def firstOcc (pat : List Char) : List Char → Option ℕ
  | [] => if leadsWith pat [] then some 0 else none
  | c :: rest =>
    if leadsWith pat (c :: rest) then some 0
    else (firstOcc pat rest).map (· + 1)

/-- utils.py lines 27-32: one iteration of the stop-pattern loop —
`if pattern.lower() in response.lower(): response = response[:pos]`. -/
def truncAt (r : List Char) (pat : List Char) : List Char :=
  match firstOcc (lower pat) (lower r) with
  | some pos => r.take pos
  | none => r

/-- utils.py lines 14-25: the `stop_patterns` list, in source order. -/
def stop_patterns : List (List Char) :=
  [ "\nHuman:".data, "\nUser:".data, "\nAssistant:".data, "\nAI:".data,
    "Human:".data, "User:".data, "Assistant:".data, "AI:".data,
    "ASSISTANT RESPONSE".data,
    "\nUSER QUESTION".data, "\nANSWER:".data, "\nDOCUMENTATION:".data,
    "\nYOUR RESPONSE".data, "\nUSER QUESTIONS".data,
    "USER QUESTION (".data, "USER QUESTIONS (".data,
    "\n\nHow do".data, "\n\nWhat is".data, "\n\nCan I".data,
    "\n\nWhere can".data, "\n\nHow to".data, "\n\nWhat are".data,
    "\n\nCan you".data, "\n\nWhere do".data,
    "\n\nIs there".data, "\n\nAre there".data,
    "\nRemember,".data, "\n\nRemember,".data,
    "what if i".data, "what if you".data ]

/-- utils.py lines 27-32: the whole stop-pattern loop. -/
def truncate_at_markers (r : List Char) : List Char :=
  stop_patterns.foldl truncAt r

/-- `re.sub(r'\s+', ' ', s)`: every maximal whitespace run becomes one space.
The boolean argument records whether the previous character was whitespace. -/
def collapseAux : Bool → List Char → List Char
  | _, [] => []
  | prevWs, c :: cs =>
    if isPySpace c then
      if prevWs then collapseAux true cs else ' ' :: collapseAux true cs
    else c :: collapseAux false cs

/-- Python `str.strip()`. -/
def pyStrip (l : List Char) : List Char :=
  (((l.dropWhile isPySpace).reverse).dropWhile isPySpace).reverse

/-- utils.py line 35: `re.sub(r'\s+', ' ', response).strip()`. -/
def normalize_ws (l : List Char) : List Char :=
  pyStrip (collapseAux false l)

/-- Python `str.split('.')`. -/
def splitDot : List Char → List (List Char)
  | [] => [[]]
  | c :: cs =>
    if c = '.' then [] :: splitDot cs
    else
      match splitDot cs with
      | [] => [[c]]
      | h :: t => (c :: h) :: t

/-- Python `'.'.join(strs)`. -/
def joinDot : List (List Char) → List Char
  | [] => []
  | [s] => s
  | s :: rest => s ++ '.' :: joinDot rest

/-- utils.py lines 38-41: drop a trailing incomplete sentence fragment. -/
def drop_incomplete_tail (r : List Char) : List Char :=
  match r.getLast? with
  | none => r
  | some c =>
    if c = '.' ∨ c = '!' ∨ c = '?' then r
    else
      let sentences := splitDot r
      if 1 < sentences.length then joinDot sentences.dropLast ++ ['.'] else r

/-- utils.py line 11: the fixed fallback greeting. -/
def fallback_greeting : List Char :=
  "I\x27m here to help! What would you like to know about FlowHCM?".data

/-- utils.py lines 8-43: `clean_response`. -/
def clean_response (r : List Char) : List Char :=
  if r = [] then fallback_greeting
  else drop_incomplete_tail (normalize_ws (truncate_at_markers r))

/-! ## config.py constants -/

/-- config.py line 30. -/
def TOP_K_RETRIEVAL : ℕ := 10

/-- config.py line 31. -/
def TOP_K_CONTEXT : ℕ := 7

/-- config.py line 32 (0.6, exact as a rational). -/
def MIN_RELEVANCE_THRESHOLD : ℚ := 0.6

/-! ## processing/chunking.py: data model and cosine similarity -/

/-- chunking.py lines 12-19: `DocumentChunk`. Relevance scores are kept exact
as rationals. -/
structure DocumentChunk where
  content : List Char
  source_file : List Char
  chunk_id : ℕ
  file_type : List Char
  relevance_score : ℚ
deriving DecidableEq

/-- `np.dot` on 1-D float arrays (equal-length vectors in all call sites). -/
def dotL (v1 v2 : List ℝ) : ℝ :=
  (List.zipWith (fun a b => a * b) v1 v2).sum

/-- `np.linalg.norm`: the L2 norm. -/
noncomputable def normL (v : List ℝ) : ℝ :=
  Real.sqrt ((v.map (fun x => x ^ 2)).sum)

/-- chunking.py lines 113-122: `SemanticChunker._cosine_similarity`. -/
noncomputable def cosine_similarity (v1 v2 : List ℝ) : ℝ :=
  if normL v1 = 0 ∨ normL v2 = 0 then 0
  else dotL v1 v2 / (normL v1 * normL v2)

/-! ## retrieval/vector_store.py -/

/-- vector_store.py: the in-memory state of `VectorStore` that `search` reads:
`self.index` (the FAISS handle together with the query encoder, modelled as the
function from a requested neighbour count to the (slot, score) pairs FAISS
returns for the current query) and `self.chunks` (the chunk list loaded from
disk or set at build time). -/
structure VectorStore where
  index : Option (ℕ → List (ℤ × ℚ))
  chunks : List DocumentChunk

/-- vector_store.py lines 78-104: `VectorStore.search`. The index is asked for
`top_k * 2` neighbours (line 92) and the results are filtered to pairs with
`idx < len(self.chunks)` and `score > 0` (line 96). An unset index yields `[]`
(line 80). -/
def VectorStore.search (vs : VectorStore) (top_k : ℕ) : List (ℤ × ℚ) :=
  match vs.index with
  | none => []
  | some knn =>
    (knn (top_k * 2)).filter
      (fun p => decide (p.1 < (vs.chunks.length : ℤ) ∧ 0 < p.2))

/-! ## retrieval/retriever.py -/

/-- retriever.py lines 11-14: `SemanticRetriever` holds the vector store and
its own chunk list (the one passed by `RAGSystem.initialize`). -/
structure SemanticRetriever where
  vector_store : VectorStore
  chunks : List DocumentChunk

/-- Python sequence indexing `l[i]` on a signed index: non-negative indices
index from the front, indices in `[-len, -1]` from the back, anything lower
raises `IndexError` (modelled as `none`). -/
def pyGet {α : Type} (l : List α) (i : ℤ) : Option α :=
  if 0 ≤ i then l[i.toNat]?
  else if 0 ≤ i + l.length then l[(i + l.length).toNat]?
  else none

/-- retriever.py lines 30-35: the result-building loop. A pair whose slot
passes `idx < len(self.chunks)` is mapped to `self.chunks[idx]` with its
`relevance_score` set; a slot that fails the test is skipped; an access that
raises `IndexError` aborts the whole call with the exception (caught only at
the orchestrator boundary). -/
def retrieveLoop (chunks : List DocumentChunk) :
    List (ℤ × ℚ) → Except (List Char) (List DocumentChunk)
  | [] => .ok []
  | (idx, score) :: rest =>
    if idx < (chunks.length : ℤ) then
      match pyGet chunks idx with
      | some c =>
        (retrieveLoop chunks rest).map
          (fun l => { c with relevance_score := score } :: l)
      | none => .error "list index out of range".data
    else retrieveLoop chunks rest

/-- retriever.py lines 16-39: `SemanticRetriever.retrieve`. -/
def SemanticRetriever.retrieve (r : SemanticRetriever) (top_k : ℕ) :
    Except (List Char) (List DocumentChunk) :=
  let results := r.vector_store.search top_k
  if results = [] then .ok []
  else retrieveLoop r.chunks results

/-- vector_store.py lines 37-76: `VectorStore.build_index`, with the two
persisted artifacts modelled jointly (`_load_index` succeeds exactly when both
files exist, setting `self.index` and `self.chunks` from disk and ignoring the
`chunks` argument; otherwise the fresh chunks are embedded and stored).
`embed` stands for encoding + FAISS construction; `none` models `return False`
(the store's fields are then not usable). -/
def build_index
    (persisted : Option ((ℕ → List (ℤ × ℚ)) × List DocumentChunk))
    (embed : List DocumentChunk → ℕ → List (ℤ × ℚ))
    (chunks : List DocumentChunk) : Option VectorStore :=
  match persisted with
  | some (pknn, pchunks) => some ⟨some pknn, pchunks⟩
  | none =>
    if chunks = [] then none
    else some ⟨some (embed chunks), chunks⟩

/-! ## rag_system.py -/

/-- rag_system.py lines 44-87: the tail of `RAGSystem.initialize`, starting
from the freshly segmented chunk list (`self.chunks = chunker.create_chunks`):
abort on an empty chunk list, build the vector index, then construct the
retriever from the vector store and the *fresh* chunk list (lines 71-79).
`none` models `return False`. -/
def ragInit
    (persisted : Option ((ℕ → List (ℤ × ℚ)) × List DocumentChunk))
    (embed : List DocumentChunk → ℕ → List (ℤ × ℚ))
    (freshChunks : List DocumentChunk) : Option SemanticRetriever :=
  if freshChunks = [] then none
  else
    match build_index persisted embed freshChunks with
    | none => none
    | some vs => some ⟨vs, freshChunks⟩

/-- rag_system.py line 136: the score list of the retrieved candidates. -/
def scores_of (docs : List DocumentChunk) : List ℚ :=
  docs.map (fun d => d.relevance_score)

/-- `np.mean` (rag_system.py line 137). -/
def mean_score (s : List ℚ) : ℚ :=
  s.sum / (s.length : ℚ)

/-- The population variance underlying `np.std` (ddof = 0). -/
def var_score (s : List ℚ) : ℚ :=
  (s.map (fun x => (x - mean_score s) ^ 2)).sum / (s.length : ℚ)

/-- `np.std` (rag_system.py line 138): population standard deviation. -/
noncomputable def std_score (s : List ℚ) : ℝ :=
  Real.sqrt ((var_score s : ℝ))

/-- rag_system.py line 141:
`max(MIN_RELEVANCE_THRESHOLD, mean_score - 0.5 * std_score)`. -/
noncomputable def dynamic_threshold (s : List ℚ) : ℝ :=
  max ((MIN_RELEVANCE_THRESHOLD : ℚ) : ℝ) ((mean_score s : ℝ) - 0.5 * std_score s)

/-- rag_system.py lines 144-150: the threshold filter followed by the
truncation `relevant_docs[:TOP_K_CONTEXT]`. -/
noncomputable def relevant_docs (docs : List DocumentChunk) : List DocumentChunk :=
  ((docs.filter
      (fun d => decide (dynamic_threshold (scores_of docs) ≤ (d.relevance_score : ℝ)))).take
    TOP_K_CONTEXT)

/-- rag_system.py line 181: the apology string built in the `except` branch
(`f"I apologize, but I encountered an issue: {str(e)}"`). -/
def apology (e : List Char) : List Char :=
  "I apologize, but I encountered an issue: ".data ++ e

/-- rag_system.py lines 183-207 under the orchestrator's `try`: the general
path `self._generate_general_response(...)` — a generation call whose raw
outcome is `genG`, post-processed by `clean_response`; a raised exception is
converted by the `except` branch. Paired with the empty source list returned
on this path. -/
def general_result (genG : Except (List Char) (List Char)) :
    List Char × List DocumentChunk :=
  match genG with
  | .ok raw => (clean_response raw, [])
  | .error e => (apology e, [])

/-- rag_system.py lines 112-181: `RAGSystem.query_with_context`, parametrised
over the outcome of `self.retriever.retrieve(user_input, TOP_K_RETRIEVAL)`
(`retrieval`) and over the raw outcomes of the generation call on the general
prompt (`genG`) and on the document prompt (`genD`). An `error` value models a
raised exception, routed to the `except` branch of lines 179-181. -/
noncomputable def query_with_context
    (retrieval : Except (List Char) (List DocumentChunk))
    (genG genD : Except (List Char) (List Char)) :
    List Char × List DocumentChunk :=
  match retrieval with
  | .error e => (apology e, [])
  | .ok context_docs =>
    if context_docs = [] then general_result genG
    else
      let rel := relevant_docs context_docs
      if rel = [] then general_result genG
      else
        match genD with
        | .ok raw => (clean_response raw, rel)
        | .error e => (apology e, [])

/-! ## Characterizations of `clean_response` outputs (used in proofs) -/

/-- No two adjacent characters of the list are both spaces. -/
def spaceOk (a b : Char) : Prop := ¬(a = ' ' ∧ b = ' ')

/-- A whitespace-normalized string: every whitespace character is a plain
space, and no two spaces are adjacent. -/
def normed (l : List Char) : Prop :=
  (∀ c ∈ l, isPySpace c = true → c = ' ') ∧ List.Chain' spaceOk l

/-- A whitespace-normalized string that is also stripped at both ends. -/
def tight (l : List Char) : Prop :=
  normed l ∧ l.head? ≠ some ' ' ∧ l.getLast? ≠ some ' '

/-! ## Concrete instances used by witnesses and counterexamples -/

/-- A chunk with relevance score 0.9. -/
def cEx : DocumentChunk :=
  ⟨"Leave policy".data, "handbook".data, 0, "docx".data, 9/10⟩

/-- A chunk used as the single stored chunk of `vsNeg`. -/
def cNeg : DocumentChunk := ⟨"c".data, "doc".data, 0, "docx".data, 0⟩

/-- A vector store whose nearest-neighbour structure reports slot -5 with a
positive score. -/
def vsNeg : VectorStore := ⟨some (fun _ => [(-5, 1/2)]), [cNeg]⟩

/-- An always-empty nearest-neighbour answer function. -/
def pEmb : ℕ → List (ℤ × ℚ) := fun _ => []

/-- An embedding/build function producing `pEmb` for every chunk list. -/
def embedNone : List DocumentChunk → ℕ → List (ℤ × ℚ) := fun _ _ => []

/-- Two fresh chunks for the stale-pairing witness. -/
def chA : DocumentChunk := ⟨"A".data, "a".data, 0, "docx".data, 0⟩

/-- Second fresh chunk for the stale-pairing witness. -/
def chB : DocumentChunk := ⟨"B".data, "a".data, 1, "docx".data, 0⟩

/-- A persisted chunk distinct from the fresh ones. -/
def chP : DocumentChunk := ⟨"P".data, "p".data, 0, "docx".data, 0⟩

/-- Twenty distinct chunks. -/
def exChunks : List DocumentChunk :=
  (List.range 20).map (fun i => ⟨[], [], i, [], 0⟩)

/-- A nearest-neighbour answer listing all twenty slots with score 1. -/
def exKnn : ℕ → List (ℤ × ℚ) :=
  fun _ => (List.range 20).map (fun i => ((i : ℤ), (1 : ℚ)))

/-- A retriever over the twenty chunks. -/
def exRetriever : SemanticRetriever := ⟨⟨some exKnn, exChunks⟩, exChunks⟩

/-- The string "Human: hi". -/
def humanHi : List Char := "Human: hi".data

/-! ## Claim theorems -/

/-- C1: for every non-empty list of candidate relevance scores, the
orchestrator's dynamic threshold equals
max(staticMinimumThreshold, mean - 0.5 * population standard deviation) of
those scores, and is therefore always at least the static minimum threshold. -/
theorem c1_dynamic_threshold (s : List ℚ) (h : s ≠ []) :
    dynamic_threshold s
        = max ((MIN_RELEVANCE_THRESHOLD : ℚ) : ℝ)
            ((mean_score s : ℝ) - 0.5 * std_score s)
      ∧ ((MIN_RELEVANCE_THRESHOLD : ℚ) : ℝ) ≤ dynamic_threshold s :=
  ⟨rfl, le_max_left _ _⟩

/-- Witness for C1 at the singleton score list [9/10]. -/
theorem c1_witness :
    dynamic_threshold [(9 : ℚ)/10]
        = max ((MIN_RELEVANCE_THRESHOLD : ℚ) : ℝ)
            ((mean_score [(9 : ℚ)/10] : ℝ) - 0.5 * std_score [(9 : ℚ)/10])
      ∧ ((MIN_RELEVANCE_THRESHOLD : ℚ) : ℝ) ≤ dynamic_threshold [(9 : ℚ)/10] :=
  c1_dynamic_threshold _ (by decide)

/-- C2: if retrieval returns zero candidates, or no candidate survives the
dynamic-threshold filter, query_with_context takes the general-response path
and returns the empty source list. -/
theorem c2_general_path (docs : List DocumentChunk)
    (genG genD : Except (List Char) (List Char))
    (h : docs = []
        ∨ docs.filter
            (fun d => decide (dynamic_threshold (scores_of docs) ≤ (d.relevance_score : ℝ)))
          = []) :
    query_with_context (.ok docs) genG genD = ((general_result genG).1, []) := by
  have hg : general_result genG = ((general_result genG).1, []) := by
    cases genG <;> rfl
  rcases h with h | h
  · subst h
    simpa [query_with_context] using hg
  · have hrel : relevant_docs docs = [] := by
      unfold relevant_docs
      rw [h]
      rfl
    by_cases hd : docs = []
    · subst hd
      simpa [query_with_context] using hg
    · simpa [query_with_context, hd, hrel] using hg

/-- Witness for C2 at an empty retrieval result. -/
theorem c2_witness :
    query_with_context (.ok []) (.ok "Hello.".data) (.ok "Doc.".data)
      = ((general_result (.ok "Hello.".data)).1, []) :=
  c2_general_path [] _ _ (Or.inl rfl)

/-- C4: every exception during retrieval or generation is caught at the
orchestrator boundary and becomes the apology string paired with an empty
source list; `query_with_context` (a total function here) never propagates an
exception to its caller. -/
theorem c4_error_handling (ret : Except (List Char) (List DocumentChunk))
    (genG genD : Except (List Char) (List Char)) :
    (∀ e, ret = .error e → query_with_context ret genG genD = (apology e, []))
    ∧ (∀ docs e, ret = .ok docs → (docs = [] ∨ relevant_docs docs = []) →
        genG = .error e → query_with_context ret genG genD = (apology e, []))
    ∧ (∀ docs e, ret = .ok docs → docs ≠ [] → relevant_docs docs ≠ [] →
        genD = .error e → query_with_context ret genG genD = (apology e, [])) := by
  refine ⟨?_, ?_, ?_⟩
  · rintro e rfl
    rfl
  · rintro docs e rfl h rfl
    rcases h with h | h
    · subst h
      rfl
    · by_cases hd : docs = []
      · subst hd
        rfl
      · simp [query_with_context, hd, h, general_result]
  · rintro docs e rfl hd hrel rfl
    simp [query_with_context, hd, hrel]

/-- Witness for C4 at a failing retrieval. -/
theorem c4_witness :
    query_with_context (.error "boom".data) (.ok "a".data) (.ok "b".data)
      = (apology "boom".data, []) :=
  (c4_error_handling _ _ _).1 _ rfl

/-- C5 counterexample: with one stored chunk and a nearest-neighbour answer
containing slot -5 at score 1/2, `search` returns that pair even though slot
-5 is outside the bounds of the one-element chunk sequence (it is below even
Python's negative-indexing range): the code checks only `idx < len(chunks)`. -/
theorem c5_counterexample :
    VectorStore.search vsNeg 10 = [(-5, 1/2)]
      ∧ (-5 : ℤ) + (vsNeg.chunks.length : ℤ) < 0 := by
  constructor
  · simp [VectorStore.search, vsNeg, List.filter_cons]
  · decide

/-- C5 amended: `search` asks the similarity structure for `2 × topK`
neighbours and returns exactly the pairs whose score is strictly positive and
whose slot index is strictly less than the chunk count (no lower bound is
checked); if the index is unset it returns `[]` and never raises. -/
theorem c5_search_filter (knn : ℕ → List (ℤ × ℚ)) (chunks : List DocumentChunk)
    (top_k : ℕ) :
    VectorStore.search ⟨some knn, chunks⟩ top_k
        = (knn (top_k * 2)).filter
            (fun p => decide (p.1 < (chunks.length : ℤ) ∧ 0 < p.2))
      ∧ (∀ p, p ∈ VectorStore.search ⟨some knn, chunks⟩ top_k →
          p.1 < (chunks.length : ℤ) ∧ 0 < p.2)
      ∧ VectorStore.search ⟨none, chunks⟩ top_k = [] := by
  refine ⟨rfl, ?_, rfl⟩
  intro p hp
  simp only [VectorStore.search] at hp
  exact of_decide_eq_true (List.mem_filter.mp hp).2

/-- Witness for C5 at a one-chunk store with an in-range result pair. -/
theorem c5_witness :
    ((0 : ℤ), (1 : ℚ)).1 < (([cNeg] : List DocumentChunk).length : ℤ)
      ∧ 0 < ((0 : ℤ), (1 : ℚ)).2 :=
  (c5_search_filter (fun _ => [((0 : ℤ), (1 : ℚ))]) [cNeg] 3).2.1 _ (by decide)

/-- C6: the segmenter's cosine similarity is 0 whenever either vector has
L2 norm 0 (no division is attempted), and is the dot product divided by the
product of the norms otherwise. -/
theorem c6_cosine_zero_norm (v1 v2 : List ℝ) :
    ((normL v1 = 0 ∨ normL v2 = 0) → cosine_similarity v1 v2 = 0)
    ∧ (¬(normL v1 = 0 ∨ normL v2 = 0) →
        cosine_similarity v1 v2 = dotL v1 v2 / (normL v1 * normL v2)) := by
  constructor
  · intro h
    unfold cosine_similarity
    exact if_pos h
  · intro h
    unfold cosine_similarity
    exact if_neg h

/-- Witness for C6 at the zero vector paired with a non-zero vector. -/
theorem c6_witness : cosine_similarity [(0 : ℝ), 0] [(1 : ℝ), 1] = 0 :=
  (c6_cosine_zero_norm _ _).1 (Or.inl (by simp [normL]))

/-- C8: when both persisted artifacts exist, initialization loads the index
and persisted chunk list into the vector store but hands the retriever the
freshly-segmented chunk list, so slot-to-chunk mapping at answer time uses the
fresh list while the loaded index (and the bounds check in `search`) refer to
the persisted one. -/
theorem c8_stale_pairing (pknn : ℕ → List (ℤ × ℚ))
    (pchunks fresh : List DocumentChunk)
    (embed : List DocumentChunk → ℕ → List (ℤ × ℚ))
    (h : fresh ≠ []) :
    ragInit (some (pknn, pchunks)) embed fresh
        = some ⟨⟨some pknn, pchunks⟩, fresh⟩
    ∧ (∀ r, ragInit (some (pknn, pchunks)) embed fresh = some r →
        r.chunks = fresh ∧ r.vector_store.chunks = pchunks)
    ∧ (∀ r (j : ℕ) (s : ℚ) (c : DocumentChunk),
        ragInit (some (pknn, pchunks)) embed fresh = some r →
        (j : ℤ) < (r.chunks.length : ℤ) →
        pyGet r.chunks (j : ℤ) = some c →
        retrieveLoop r.chunks [((j : ℤ), s)]
            = .ok [{ c with relevance_score := s }]
          ∧ pyGet fresh (j : ℤ) = some c) := by
  have h1 : ragInit (some (pknn, pchunks)) embed fresh
      = some ⟨⟨some pknn, pchunks⟩, fresh⟩ := by
    simp [ragInit, h, build_index]
  refine ⟨h1, ?_, ?_⟩
  · intro r hr
    rw [h1] at hr
    injection hr with hr
    subst hr
    exact ⟨rfl, rfl⟩
  · intro r j s c hr hj hc
    have hrc : r.chunks = fresh := by
      rw [h1] at hr
      injection hr with hr
      subst hr
      rfl
    constructor
    · simp [retrieveLoop, hj, hc, Except.map]
    · rw [← hrc]
      exact hc

/-- Witness for C8: the retriever built over persisted chunk `chP` and fresh
chunks `[chA, chB]` maps slot 1 to the fresh chunk `chB`. -/
theorem c8_witness :
    retrieveLoop [chA, chB] [(((1 : ℕ) : ℤ), (2 : ℚ))]
        = .ok [{ chB with relevance_score := (2 : ℚ) }]
      ∧ pyGet [chA, chB] ((1 : ℕ) : ℤ) = some chB :=
  (c8_stale_pairing pEmb [chP] [chA, chB] embedNone (by decide)).2.2
    ⟨⟨some pEmb, [chP]⟩, [chA, chB]⟩ 1 2 chB
    (by simp [ragInit, build_index]) (by decide) (by decide)

/-- The result-building loop returns at most one chunk per input pair. -/
theorem retrieveLoop_length_le (chunks : List DocumentChunk) :
    ∀ (ps : List (ℤ × ℚ)) (l : List DocumentChunk),
      retrieveLoop chunks ps = .ok l → l.length ≤ ps.length := by
  intro ps
  induction ps with
  | nil =>
    intro l h
    simp only [retrieveLoop] at h
    injection h with h
    subst h
    exact Nat.le_refl 0
  | cons p rest ih =>
    obtain ⟨idx, score⟩ := p
    intro l h
    by_cases hidx : idx < (chunks.length : ℤ)
    · simp only [retrieveLoop, if_pos hidx] at h
      cases hc : pyGet chunks idx with
      | some c =>
        rw [hc] at h
        cases hrec : retrieveLoop chunks rest with
        | error e =>
          rw [hrec] at h
          simp [Except.map] at h
        | ok l' =>
          rw [hrec] at h
          simp only [Except.map] at h
          injection h with h
          subst h
          exact Nat.succ_le_succ (ih l' hrec)
      | none =>
        rw [hc] at h
        simp at h
    · simp only [retrieveLoop, if_neg hidx] at h
      exact Nat.le_succ_of_le (ih l h)

/-- C9: `retrieve` can hand back more than `topK` chunks — up to `2 × topK`,
since `search` requests `topK * 2` neighbours and neither `search` nor the
retriever truncates the list to `topK`; with the configured `TOP_K_RETRIEVAL`
of 10 a retriever state exists that returns 20 candidates, and the
orchestrator's score statistics range over the whole returned candidate
list. -/
theorem c9_over_retrieval :
    (∀ (vsChunks rChunks : List DocumentChunk) (knn : ℕ → List (ℤ × ℚ))
        (top_k : ℕ) (l : List DocumentChunk),
      (knn (top_k * 2)).length ≤ top_k * 2 →
      SemanticRetriever.retrieve ⟨⟨some knn, vsChunks⟩, rChunks⟩ top_k = .ok l →
      l.length ≤ top_k * 2)
    ∧ (SemanticRetriever.retrieve exRetriever TOP_K_RETRIEVAL).toOption.map
          List.length
        = some (TOP_K_RETRIEVAL * 2)
    ∧ TOP_K_RETRIEVAL < TOP_K_RETRIEVAL * 2
    ∧ (∀ docs : List DocumentChunk, (scores_of docs).length = docs.length) := by
  refine ⟨?_, by rfl, by decide, fun docs => by simp [scores_of]⟩
  intro vsChunks rChunks knn top_k l hk h
  simp only [SemanticRetriever.retrieve] at h
  by_cases hres : VectorStore.search ⟨some knn, vsChunks⟩ top_k = []
  · rw [if_pos hres] at h
    injection h with h
    subst h
    exact Nat.zero_le _
  · rw [if_neg hres] at h
    refine le_trans (retrieveLoop_length_le _ _ _ h) (le_trans ?_ hk)
    exact List.length_filter_le _ _

/-- Witness for C9 at an empty nearest-neighbour answer. -/
theorem c9_witness :
    SemanticRetriever.retrieve ⟨⟨some pEmb, []⟩, []⟩ 3 = .ok []
      ∧ ([] : List DocumentChunk).length ≤ 3 * 2 :=
  ⟨by rfl, c9_over_retrieval.1 [] [] pEmb 3 [] (by decide) (by rfl)⟩

/-- C10: the fallback greeting is substituted only on the empty raw response
(every non-empty input goes through the truncate/normalize pipeline instead),
and the non-empty input "Human: hi" — which starts with a leakage marker — is
cleaned to the empty string, not to the fallback. -/
theorem c10_fallback_only_when_empty :
    (∀ r : List Char, r ≠ [] →
        clean_response r = drop_incomplete_tail (normalize_ws (truncate_at_markers r)))
      ∧ clean_response humanHi = []
      ∧ humanHi ≠ []
      ∧ leadsWith "Human:".data humanHi = true
      ∧ clean_response humanHi ≠ fallback_greeting := by
  refine ⟨?_, by decide, by decide, by decide, by decide⟩
  intro r hr
  simp [clean_response, hr]

/-- Witness for C10 at the non-empty input "Ok.". -/
theorem c10_witness :
    clean_response "Ok.".data
      = drop_incomplete_tail (normalize_ws (truncate_at_markers "Ok.".data)) :=
  c10_fallback_only_when_empty.1 _ (by decide)

/-- Evaluation of the filter pipeline on the single candidate `cEx`:
its score 9/10 meets the dynamic threshold max(0.6, 9/10 - 0) = 9/10. -/
theorem relevant_docs_cEx : relevant_docs [cEx] = [cEx] := by
  have hsc : scores_of [cEx] = [9/10] := by
    simp [scores_of, cEx]
  have hm : mean_score (scores_of [cEx]) = 9/10 := by
    rw [hsc]
    norm_num [mean_score]
  have hv : var_score (scores_of [cEx]) = 0 := by
    rw [var_score, hm, hsc]
    norm_num
  have hs : std_score (scores_of [cEx]) = 0 := by
    rw [std_score, hv]
    simp
  have ht : dynamic_threshold (scores_of [cEx]) = (9 : ℝ)/10 := by
    rw [dynamic_threshold, hm, hs, MIN_RELEVANCE_THRESHOLD]
    push_cast
    norm_num
  have hd : (decide (dynamic_threshold (scores_of [cEx]) ≤ (cEx.relevance_score : ℝ)))
      = true := by
    rw [decide_eq_true_eq, ht]
    have : cEx.relevance_score = 9/10 := rfl
    rw [this]
    push_cast
    norm_num
  unfold relevant_docs
  rw [List.filter_cons, hd]
  rfl

/-- C3: on a non-empty retrieval result whose filtered set is non-empty, the
sources returned with the document-aware response are exactly the candidates
meeting the dynamic threshold, truncated to at most TOP_K_CONTEXT = 7, with
the input's descending-score order preserved. -/
theorem c3_document_sources (docs : List DocumentChunk)
    (genG : Except (List Char) (List Char)) (raw : List Char)
    (h0 : docs ≠ []) (h1 : relevant_docs docs ≠ []) :
    query_with_context (.ok docs) genG (.ok raw)
        = (clean_response raw, relevant_docs docs)
      ∧ relevant_docs docs
          = (docs.filter
              (fun d => decide (dynamic_threshold (scores_of docs) ≤ (d.relevance_score : ℝ)))).take
              TOP_K_CONTEXT
      ∧ (relevant_docs docs).length ≤ TOP_K_CONTEXT
      ∧ (∀ d, d ∈ docs.filter
              (fun d => decide (dynamic_threshold (scores_of docs) ≤ (d.relevance_score : ℝ)))
          ↔ d ∈ docs ∧ dynamic_threshold (scores_of docs) ≤ (d.relevance_score : ℝ))
      ∧ (docs.Pairwise (fun a b => b.relevance_score ≤ a.relevance_score) →
          (relevant_docs docs).Pairwise (fun a b => b.relevance_score ≤ a.relevance_score)) := by
  refine ⟨?_, rfl, ?_, ?_, ?_⟩
  · simp [query_with_context, h0, h1]
  · exact List.length_take_le _ _
  · intro d
    rw [List.mem_filter]
    simp only [decide_eq_true_eq]
  · intro hp
    exact List.Pairwise.sublist (List.take_sublist _ _) (hp.filter _)

/-- Witness for C3 at the single candidate `cEx` with score 9/10. -/
theorem c3_witness :
    query_with_context (.ok [cEx]) (.ok "G.".data) (.ok "The policy.".data)
      = (clean_response "The policy.".data, relevant_docs [cEx]) :=
  (c3_document_sources [cEx] _ _ (by decide)
      (by rw [relevant_docs_cEx]; decide)).1

/-- Every whitespace character emitted by the run-collapser is a plain space. -/
theorem collapseAux_mem :
    ∀ (b : Bool) (l : List Char), ∀ c ∈ collapseAux b l, isPySpace c = true → c = ' ' := by
  intro b l
  induction l generalizing b with
  | nil => intro c hc; simp [collapseAux] at hc
  | cons d ds ih =>
    intro c hc hsp
    by_cases hd : isPySpace d
    · rcases hb : b with _ | _
      · rw [collapseAux, if_pos hd, hb] at hc
        simp only [Bool.false_eq_true, if_false] at hc
        rcases List.mem_cons.mp hc with h | h
        · exact h
        · exact ih true c h hsp
      · rw [collapseAux, if_pos hd, hb] at hc
        simp only [if_true] at hc
        exact ih true c hc hsp
    · rw [collapseAux, if_neg hd] at hc
      rcases List.mem_cons.mp hc with h | h
      · subst h; exact absurd hsp (by simpa using hd)
      · exact ih false c h hsp

/-- After a whitespace run has just been collapsed, the next emitted character
is not whitespace. -/
theorem collapseAux_head_true :
    ∀ (l : List Char) (c : Char),
      (collapseAux true l).head? = some c → isPySpace c = false := by
  intro l
  induction l with
  | nil => intro c hc; simp [collapseAux] at hc
  | cons d ds ih =>
    intro c hc
    by_cases hd : isPySpace d
    · rw [collapseAux, if_pos hd] at hc
      simp only [if_true] at hc
      exact ih c hc
    · rw [collapseAux, if_neg hd] at hc
      simp only [List.head?_cons, Option.some.injEq] at hc
      subst hc
      simpa using hd

/-- The run-collapser never emits two adjacent spaces. -/
theorem collapseAux_chain :
    ∀ (b : Bool) (l : List Char), List.Chain' spaceOk (collapseAux b l) := by
  intro b l
  induction l generalizing b with
  | nil => simp [collapseAux]
  | cons d ds ih =>
    by_cases hd : isPySpace d
    · rcases b with _ | _
      · rw [collapseAux, if_pos hd]
        simp only [Bool.false_eq_true, if_false]
        refine List.chain'_cons'.mpr ⟨?_, ih true⟩
        intro y hy
        have : isPySpace y = false := collapseAux_head_true ds y hy
        intro hcon
        rw [hcon.2] at this
        simp [isPySpace] at this
      · rw [collapseAux, if_pos hd]
        simp only [if_true]
        exact ih true
    · rw [collapseAux, if_neg hd]
      refine List.chain'_cons'.mpr ⟨?_, ih false⟩
      intro y hy hcon
      rw [hcon.1] at hd
      simp [isPySpace] at hd

/-- On an already-normalized string the run-collapser is the identity (in both
states, provided in state `true` the head is not a space). -/
theorem collapseAux_fix :
    ∀ l : List Char, normed l →
      collapseAux false l = l ∧ (l.head? ≠ some ' ' → collapseAux true l = l) := by
  intro l
  induction l with
  | nil => exact fun _ => ⟨rfl, fun _ => rfl⟩
  | cons d ds ih =>
    intro hn
    have hnds : normed ds :=
      ⟨fun c hc => hn.1 c (List.mem_cons_of_mem _ hc), hn.2.tail⟩
    by_cases hd : isPySpace d
    · have hd' : d = ' ' := hn.1 d (List.mem_cons_self _ _) hd
      subst hd'
      have hhead : ds.head? ≠ some ' ' := by
        intro hcon
        have := (List.chain'_cons'.mp hn.2).1 ' ' hcon
        exact this ⟨rfl, rfl⟩
      constructor
      · rw [collapseAux, if_pos hd]
        simp only [Bool.false_eq_true, if_false]
        rw [(ih hnds).2 hhead]
      · intro hcon
        exact absurd rfl hcon
    · constructor
      · rw [collapseAux, if_neg hd]
        rw [(ih hnds).1]
      · intro _
        rw [collapseAux, if_neg hd]
        rw [(ih hnds).1]

/-- Dropping a whitespace run preserves normalization. -/
theorem normed_dropWhile (l : List Char) (h : normed l) :
    normed (l.dropWhile isPySpace) := by
  induction l with
  | nil => simpa using h
  | cons d ds ih =>
    by_cases hd : isPySpace d
    · rw [List.dropWhile_cons_of_pos hd]
      exact ih ⟨fun c hc => h.1 c (List.mem_cons_of_mem _ hc), h.2.tail⟩
    · rwa [List.dropWhile_cons_of_neg (by simpa using hd)]

/-- The head left by `dropWhile isPySpace` is not whitespace. -/
theorem head_dropWhile (l : List Char) :
    ∀ c, (l.dropWhile isPySpace).head? = some c → isPySpace c = false := by
  induction l with
  | nil => intro c hc; simp at hc
  | cons d ds ih =>
    intro c hc
    by_cases hd : isPySpace d
    · rw [List.dropWhile_cons_of_pos hd] at hc
      exact ih c hc
    · rw [List.dropWhile_cons_of_neg (by simpa using hd)] at hc
      simp only [List.head?_cons, Option.some.injEq] at hc
      subst hc
      simpa using hd

/-- Reversal preserves normalization. -/
theorem normed_reverse (l : List Char) (h : normed l) : normed l.reverse := by
  refine ⟨fun c hc => h.1 c (List.mem_reverse.mp hc), ?_⟩
  rw [List.chain'_reverse]
  exact h.2.imp (fun a b hab => fun hcon => hab ⟨hcon.2, hcon.1⟩)

/-- A non-empty `dropWhile` keeps the last element. -/
theorem getLast_dropWhile (p : Char → Bool) :
    ∀ l : List Char, l.dropWhile p ≠ [] →
      (l.dropWhile p).getLast? = l.getLast? := by
  intro l
  induction l with
  | nil => intro h; simp at h
  | cons d ds ih =>
    intro h
    by_cases hd : p d
    · rw [List.dropWhile_cons_of_pos hd] at h ⊢
      have hds : ds ≠ [] := by
        intro hcon
        subst hcon
        simp at h
      rw [ih h]
      obtain ⟨e, es, rfl⟩ := List.exists_cons_of_ne_nil hds
      simp [List.getLast?_cons_cons]
    · rw [List.dropWhile_cons_of_neg (by simpa using hd)]

/-- Stripping a normalized string yields a tight string. -/
theorem tight_pyStrip (l : List Char) (h : normed l) : tight (pyStrip l) := by
  set s1 := l.dropWhile isPySpace with hs1
  have hn1 : normed s1 := normed_dropWhile l h
  set s2 := s1.reverse.dropWhile isPySpace with hs2
  have hn2 : normed s2 := normed_dropWhile _ (normed_reverse _ hn1)
  have hres : pyStrip l = s2.reverse := rfl
  refine ⟨normed_reverse _ hn2, ?_, ?_⟩
  · rw [hres]
    by_cases h2 : s2 = []
    · rw [h2]
      simp
    · rw [List.head?_reverse]
      rw [getLast_dropWhile isPySpace s1.reverse (by rwa [← hs2])]
      rw [List.getLast?_reverse]
      intro hcon
      have := head_dropWhile l ' ' (by rw [← hs1]; exact hcon)
      simp [isPySpace] at this
  · rw [hres, List.getLast?_reverse]
    intro hcon
    have := head_dropWhile s1.reverse ' ' (by rw [← hs2]; exact hcon)
    simp [isPySpace] at this

/-- `dropWhile` is the identity when the head does not satisfy the test. -/
theorem dropWhile_id_of_head (p : Char → Bool) (l : List Char)
    (h : ∀ c, l.head? = some c → p c = false) : l.dropWhile p = l := by
  cases l with
  | nil => rfl
  | cons d ds =>
    rw [List.dropWhile_cons_of_neg]
    rw [h d rfl]
    simp

/-- Stripping a tight string is the identity. -/
theorem pyStrip_id (l : List Char) (h : tight l) : pyStrip l = l := by
  have hhead : ∀ c, l.head? = some c → isPySpace c = false := by
    intro c hc
    by_cases hsp : isPySpace c
    · have hmem : c ∈ l := by
        cases l with
        | nil => simp at hc
        | cons d ds =>
          simp only [List.head?_cons, Option.some.injEq] at hc
          subst hc
          exact List.mem_cons_self _ _
      have := h.1.1 c hmem hsp
      subst this
      exact absurd hc h.2.1
    · simpa using hsp
  have hlast : ∀ c, l.reverse.head? = some c → isPySpace c = false := by
    intro c hc
    rw [List.head?_reverse] at hc
    by_cases hsp : isPySpace c
    · have hmem : c ∈ l := by
        obtain ⟨hne, rfl⟩ := List.mem_getLast?_eq_getLast hc
        exact List.getLast_mem hne
      have := h.1.1 c hmem hsp
      subst this
      exact absurd hc h.2.2
    · simpa using hsp
  rw [pyStrip, dropWhile_id_of_head _ _ hhead, dropWhile_id_of_head _ _ hlast,
    List.reverse_reverse]

/-- `normalize_ws` always produces a tight string. -/
theorem normalize_ws_tight (l : List Char) : tight (normalize_ws l) :=
  tight_pyStrip _ ⟨collapseAux_mem false l, collapseAux_chain false l⟩

/-- `normalize_ws` is the identity on tight strings. -/
theorem normalize_ws_id (l : List Char) (h : tight l) : normalize_ws l = l := by
  rw [normalize_ws, (collapseAux_fix l h.1).1, pyStrip_id l h]

/-- `splitDot` never returns the empty list of segments. -/
theorem splitDot_ne_nil : ∀ l : List Char, splitDot l ≠ [] := by
  intro l
  cases l with
  | nil => simp [splitDot]
  | cons c cs =>
    by_cases hc : c = '.'
    · simp [splitDot, hc]
    · rw [splitDot]
      simp only [hc, if_false]
      cases hsp : splitDot cs with
      | nil => simp
      | cons h t => simp

/-- Joining the segments of a split reconstructs the string. -/
theorem joinDot_splitDot : ∀ l : List Char, joinDot (splitDot l) = l := by
  intro l
  induction l with
  | nil => rfl
  | cons c cs ih =>
    by_cases hc : c = '.'
    · subst hc
      rw [splitDot]
      simp only [if_pos rfl]
      cases hsp : splitDot cs with
      | nil => exact absurd hsp (splitDot_ne_nil cs)
      | cons h t =>
        have hih : joinDot (h :: t) = cs := by rw [← hsp]; exact ih
        simp only [joinDot, List.nil_append]
        rw [hih]
    · rw [splitDot]
      simp only [hc, if_false]
      cases hsp : splitDot cs with
      | nil => exact absurd hsp (splitDot_ne_nil cs)
      | cons h t =>
        have hih : joinDot (h :: t) = cs := by rw [← hsp]; exact ih
        cases t with
        | nil =>
          simp only [joinDot] at hih ⊢
          rw [hih]
        | cons h2 t2 =>
          simp only [joinDot] at hih ⊢
          rw [List.cons_append, hih]

/-- `joinDot` over an appended final segment. -/
theorem joinDot_append_single :
    ∀ (A : List (List Char)) (b : List Char), A ≠ [] →
      joinDot (A ++ [b]) = joinDot A ++ '.' :: b := by
  intro A
  induction A with
  | nil => intro b h; exact absurd rfl h
  | cons a A' ih =>
    intro b _
    cases A' with
    | nil => simp [joinDot]
    | cons a2 A2 =>
      have hne : a2 :: A2 ≠ [] := by simp
      calc joinDot ((a :: a2 :: A2) ++ [b])
          = a ++ '.' :: joinDot ((a2 :: A2) ++ [b]) := rfl
        _ = a ++ '.' :: (joinDot (a2 :: A2) ++ '.' :: b) := by rw [ih b hne]
        _ = (a ++ '.' :: joinDot (a2 :: A2)) ++ '.' :: b := by simp
        _ = joinDot (a :: a2 :: A2) ++ '.' :: b := by simp only [joinDot]

/-- `drop_incomplete_tail` either leaves its input unchanged or cuts it at the
last '.', i.e. the input factors as `(joinDot A ++ ['.']) ++ rest` with result
`joinDot A ++ ['.']`. -/
theorem drop_incomplete_cases (r : List Char) :
    drop_incomplete_tail r = r
    ∨ ∃ (A : List (List Char)) (rest : List Char), A ≠ []
        ∧ r = (joinDot A ++ ['.']) ++ rest
        ∧ drop_incomplete_tail r = joinDot A ++ ['.'] := by
  cases hg : r.getLast? with
  | none => left; simp [drop_incomplete_tail, hg]
  | some c =>
    by_cases hc : c = '.' ∨ c = '!' ∨ c = '?'
    · left; simp [drop_incomplete_tail, hg, hc]
    · by_cases hlen : 1 < (splitDot r).length
      · have hne : splitDot r ≠ [] := splitDot_ne_nil r
        have hAne : (splitDot r).dropLast ≠ [] := by
          intro hcon
          have := List.length_dropLast (splitDot r)
          rw [hcon] at this
          simp only [List.length_nil] at this
          omega
        have hsplit : (splitDot r).dropLast ++ [(splitDot r).getLast hne]
            = splitDot r := List.dropLast_append_getLast hne
        have hr : r = joinDot (splitDot r).dropLast
            ++ '.' :: (splitDot r).getLast hne := by
          conv_lhs => rw [← joinDot_splitDot r, ← hsplit]
          exact joinDot_append_single _ _ hAne
        refine Or.inr ⟨(splitDot r).dropLast, (splitDot r).getLast hne, hAne, ?_, ?_⟩
        · rw [List.append_assoc]
          simpa using hr
        · simp [drop_incomplete_tail, hg, hc, hlen]
      · left; simp [drop_incomplete_tail, hg, hc, hlen]

/-- `drop_incomplete_tail` either fixes its input or produces a string ending
in '.'. -/
theorem drop_incomplete_getLast (r : List Char) :
    drop_incomplete_tail r = r
      ∨ (drop_incomplete_tail r).getLast? = some '.' := by
  rcases drop_incomplete_cases r with h | ⟨A, rest, _, _, hres⟩
  · exact Or.inl h
  · right
    rw [hres]
    simp

/-- `drop_incomplete_tail` is idempotent. -/
theorem drop_incomplete_idem (r : List Char) :
    drop_incomplete_tail (drop_incomplete_tail r) = drop_incomplete_tail r := by
  rcases drop_incomplete_getLast r with h | h
  · rw [h]
    exact h
  · generalize hy : drop_incomplete_tail r = y at h ⊢
    simp [drop_incomplete_tail, h]

/-- `drop_incomplete_tail` preserves tightness. -/
theorem drop_incomplete_tight (t : List Char) (h : tight t) :
    tight (drop_incomplete_tail t) := by
  rcases drop_incomplete_cases t with he | ⟨A, rest, _, hr, hres⟩
  · rw [he]
    exact h
  · rw [hres]
    refine ⟨⟨?_, ?_⟩, ?_, ?_⟩
    · intro c hc hsp
      refine h.1.1 c ?_ hsp
      rw [hr]
      exact List.mem_append_left _ hc
    · have hch := h.1.2
      rw [hr] at hch
      exact (List.chain'_append.mp hch).1
    · cases hA' : joinDot A with
      | nil => simp
      | cons a as =>
        have hth : t.head? = some a := by
          rw [hr, hA']
          simp
        simp only [List.cons_append, List.head?_cons]
        intro hcon
        injection hcon with hcon
        subst hcon
        exact h.2.1 hth
    · simp

/-- A single pattern pass is the identity when the pattern does not occur. -/
theorem truncAt_id (r pat : List Char)
    (h : firstOcc (lower pat) (lower r) = none) : truncAt r pat = r := by
  rw [truncAt, h]

/-- The stop-pattern loop is the identity when no pattern occurs. -/
theorem foldl_truncAt_id :
    ∀ (ps : List (List Char)) (r : List Char),
      (∀ p ∈ ps, firstOcc (lower p) (lower r) = none) →
      ps.foldl truncAt r = r := by
  intro ps
  induction ps with
  | nil => intro r _; rfl
  | cons p ps ih =>
    intro r h
    have h1 : truncAt r p = r := truncAt_id r p (h p (List.mem_cons_self _ _))
    rw [List.foldl_cons, h1]
    exact ih r (fun q hq => h q (List.mem_cons_of_mem _ hq))

/-- C7 counterexample: cleaning "Human: hi" yields the empty string (the
whole text is truncated at the marker), and cleaning again substitutes the
fallback greeting, so applying `clean_response` twice differs from applying
it once. -/
theorem c7_counterexample :
    clean_response (clean_response humanHi) ≠ clean_response humanHi := by
  decide

/-- C7 amended: `clean_response` is idempotent on every input whose cleaned
result is non-empty and free of stop markers (case-insensitively); in general
a second application can differ, since a fully-truncated response cleans to
the empty string, which the second application replaces by the fallback
greeting, and whitespace collapsing can create a new marker occurrence. -/
theorem c7_clean_response_idem (x : List Char)
    (h1 : clean_response x ≠ [])
    (h2 : ∀ p ∈ stop_patterns,
        firstOcc (lower p) (lower (clean_response x)) = none) :
    clean_response (clean_response x) = clean_response x := by
  by_cases hx : x = []
  · subst hx
    decide
  · have hy : clean_response x
        = drop_incomplete_tail (normalize_ws (truncate_at_markers x)) := by
      simp [clean_response, hx]
    have hty : tight (clean_response x) := by
      rw [hy]
      exact drop_incomplete_tight _ (normalize_ws_tight _)
    have hstep4 : drop_incomplete_tail (clean_response x) = clean_response x := by
      rw [hy]
      exact drop_incomplete_idem _
    obtain ⟨y, hydef⟩ : ∃ y, clean_response x = y := ⟨_, rfl⟩
    rw [hydef] at h1 h2 hty hstep4 ⊢
    calc clean_response y
        = drop_incomplete_tail (normalize_ws (truncate_at_markers y)) := by
          simp only [clean_response]
          rw [if_neg h1]
      _ = drop_incomplete_tail (normalize_ws y) := by
          rw [truncate_at_markers, foldl_truncAt_id _ _ h2]
      _ = drop_incomplete_tail y := by
          rw [normalize_ws_id _ hty]
      _ = y := hstep4

/-- Witness for the amended C7 at the input "Hello world.". -/
theorem c7_witness :
    clean_response (clean_response "Hello world.".data)
      = clean_response "Hello world.".data :=
  c7_clean_response_idem _ (by decide) (by decide)
